import Mathlib

/-
Verification of the configuration-hydration walk and notebook task
derivation of pydoit-nb, as a shallow embedding in Lean.

The embedding models:
  * `pathlib` paths (POSIX pure paths) as `PyPath`;
  * arbitrarily nested attrs-style configuration values as `Value`
    (paths, strings, numpy arrays, pint quantities, attrs records,
    lists and dicts);
  * `config_handling.insert_path_prefix` / `update_attr_value` /
    `iterable_values_are_updatable` as a mutual walk over `Value`;
  * `config_handling.get_step_config_ids`, `get_config_for_step_id`,
    `config_helpers.assert_step_config_ids_are_unique`;
  * `notebook.ConfiguredNotebook.to_doit_task` and
    `notebook_run.run_notebook`.
-/

namespace PydoitNb

/-- Model of a `pathlib.PurePosixPath`: an `absolute` flag plus the
non-root components, in order. -/
structure PyPath where
  absolute : Bool
  parts : List String
deriving Repr, DecidableEq

/-- Model of `pathlib`'s `/` operator (`PurePath.joinpath`): if the
right operand is absolute, the left operand is discarded. -/
def pyJoin (p q : PyPath) : PyPath :=
  if q.absolute then q else ⟨p.absolute, p.parts ++ q.parts⟩

/-- Model of the values a configuration object graph can hold: paths,
text strings, numpy numeric arrays, pint unit-bearing quantities
(magnitudes plus a unit string), attrs records (type name plus named
fields in order), lists, and dicts (insertion-ordered key/value pairs,
keys unique). -/
inductive Value where
  | path (p : PyPath)
  | str (s : String)
  | arr (xs : List Int)
  | quant (xs : List Int) (u : String)
  | record (name : String) (fields : List (String × Value))
  | list (elems : List Value)
  | map (entries : List (Value × Value))
deriving Repr

mutual

/-- Model of Python `==` on `Value` (structural equality). -/
def Value.beq : Value → Value → Bool
  | .path p, .path q => p == q
  | .str a, .str b => a == b
  | .arr a, .arr b => a == b
  | .quant a u, .quant b w => a == b && u == w
  | .record n fs, .record m gs => n == m && fieldsBeq fs gs
  | .list a, .list b => elemsBeq a b
  | .map a, .map b => entriesBeq a b
  | _, _ => false
termination_by structural x => x

def fieldsBeq : List (String × Value) → List (String × Value) → Bool
  | [], [] => true
  | (n, v) :: a, (m, w) :: b => n == m && Value.beq v w && fieldsBeq a b
  | _, _ => false
termination_by structural x => x

def entriesBeq : List (Value × Value) → List (Value × Value) → Bool
  | [], [] => true
  | (k, v) :: a, (l, w) :: b => Value.beq k l && Value.beq v w && entriesBeq a b
  | _, _ => false
termination_by structural x => x

def elemsBeq : List Value → List Value → Bool
  | [], [] => true
  | v :: a, w :: b => Value.beq v w && elemsBeq a b
  | _, _ => false
termination_by structural x => x

end

mutual

theorem value_beq_iff (a b : Value) : Value.beq a b = true ↔ a = b := by
  cases a with
  | path p => cases b <;> simp [Value.beq]
  | str s => cases b <;> simp [Value.beq]
  | arr xs => cases b <;> simp [Value.beq]
  | quant xs u => cases b <;> simp [Value.beq]
  | record n fs =>
      cases b with
      | record m gs => simp [Value.beq, fields_beq_iff fs gs]
      | path p => simp [Value.beq]
      | str s => simp [Value.beq]
      | arr ys => simp [Value.beq]
      | quant ys w => simp [Value.beq]
      | list ys => simp [Value.beq]
      | map ys => simp [Value.beq]
  | list xs =>
      cases b with
      | list ys => simp [Value.beq, elems_beq_iff xs ys]
      | path p => simp [Value.beq]
      | str s => simp [Value.beq]
      | arr ys => simp [Value.beq]
      | quant ys w => simp [Value.beq]
      | record m gs => simp [Value.beq]
      | map ys => simp [Value.beq]
  | map xs =>
      cases b with
      | map ys => simp [Value.beq, entries_beq_iff xs ys]
      | path p => simp [Value.beq]
      | str s => simp [Value.beq]
      | arr ys => simp [Value.beq]
      | quant ys w => simp [Value.beq]
      | record m gs => simp [Value.beq]
      | list ys => simp [Value.beq]

theorem fields_beq_iff (a b : List (String × Value)) : fieldsBeq a b = true ↔ a = b := by
  cases a with
  | nil => cases b <;> simp [fieldsBeq]
  | cons x xs =>
      cases b with
      | nil => simp [fieldsBeq]
      | cons y ys =>
          cases x with
          | mk n v =>
              cases y with
              | mk m w =>
                  simp [fieldsBeq, value_beq_iff v w, fields_beq_iff xs ys]

theorem entries_beq_iff (a b : List (Value × Value)) : entriesBeq a b = true ↔ a = b := by
  cases a with
  | nil => cases b <;> simp [entriesBeq]
  | cons x xs =>
      cases b with
      | nil => simp [entriesBeq]
      | cons y ys =>
          cases x with
          | mk k v =>
              cases y with
              | mk l w =>
                  simp [entriesBeq, value_beq_iff k l, value_beq_iff v w,
                    entries_beq_iff xs ys]

theorem elems_beq_iff (a b : List Value) : elemsBeq a b = true ↔ a = b := by
  cases a with
  | nil => cases b <;> simp [elemsBeq]
  | cons x xs =>
      cases b with
      | nil => simp [elemsBeq]
      | cons y ys =>
          simp [elemsBeq, value_beq_iff x y, elems_beq_iff xs ys]

end

instance : DecidableEq Value := fun a b => decidable_of_iff _ (value_beq_iff a b)

/-- Model of one assignment `d[k] = v` on a Python dict rendered as an
insertion-ordered association list: an existing (equal) key keeps its
place and its stored key object, only the value is replaced; a new key
is appended. -/
def pyDictInsert (d : List (Value × Value)) (kv : Value × Value) : List (Value × Value) :=
  if d.any (fun e => Value.beq e.1 kv.1) then
    d.map (fun e => if Value.beq e.1 kv.1 then (e.1, kv.2) else e)
  else d ++ [kv]

/-- Model of a Python dict comprehension body: the produced key/value
pairs are inserted one by one into a fresh dict. -/
def pyDictRebuild (l : List (Value × Value)) : List (Value × Value) :=
  l.foldl pyDictInsert []

/-- Embedding of `config_handling.iterable_values_are_updatable`: an
iterable's elements are updatable unless the value is a `str`, a
`numpy.ndarray` or (pint being available) a pint `Quantity`. -/
def iterable_values_are_updatable : Value → Bool
  | .str _ => false
  | .arr _ => false
  | .quant _ _ => false
  | _ => true

/-- Which `Value`s are instances of `collections.abc.Iterable` in
Python: strings, numpy arrays, pint quantities, lists and dicts are;
`pathlib` paths and attrs records are not. -/
def isPyIterable : Value → Bool
  | .str _ => true
  | .arr _ => true
  | .quant _ _ => true
  | .list _ => true
  | .map _ => true
  | _ => false

/-- Which `Value`s are instances of `dict`. -/
def isPyDict : Value → Bool
  | .map _ => true
  | _ => false

mutual

def hydrateFields : List (String × Value) → PyPath → List (String × Value)
  | [], _ => []
  | (n, v) :: rest, pre => (n, hydrateFieldValue v pre) :: hydrateFields rest pre

/-- Per-field branch of `config_handling.insert_path_prefix`: a dict is
rebuilt with `update_attr_value` applied to keys and values, an
updatable iterable is rebuilt as a list of updated elements, and every
other value goes through `update_attr_value` (whose record and path
cases are inlined here so the recursion is structural;
`hydrateFieldValue_eq_update` relates the fallthrough cases to the
source's `isinstance` tests and to `update_attr_value`). -/
def hydrateFieldValue : Value → PyPath → Value
  | .map entries, pre => .map (pyDictRebuild (hydrateEntries entries pre))
  | .list elems, pre => .list (hydrateElems elems pre)
  | .record name fs, pre => .record name (hydrateFields fs pre)
  | .path p, pre => .path (pyJoin pre p)
  | v, _ => v

def hydrateEntries : List (Value × Value) → PyPath → List (Value × Value)
  | [], _ => []
  | (k, v) :: rest, pre =>
      (update_attr_value k pre, update_attr_value v pre) :: hydrateEntries rest pre

def hydrateElems : List Value → PyPath → List Value
  | [], _ => []
  | v :: rest, pre => update_attr_value v pre :: hydrateElems rest pre

/-- Embedding of `config_handling.update_attr_value`: an attrs record
recurses into the field walk (the source calls `insert_path_prefix`,
see `update_attr_value_record`), a `Path` gets the prefix prepended
(`prefix / value`), everything else is returned unchanged. -/
def update_attr_value : Value → PyPath → Value
  | .record name fs, pre => .record name (hydrateFields fs pre)
  | .path p, pre => .path (pyJoin pre p)
  | v, _ => v

end

/-- Embedding of `config_handling.insert_path_prefix`: walk the fields
of an attrs record and reconstruct it (`attrs.evolve`) with the same
type and field names, substituting hydrated field values. -/
def insert_path_prefix (name : String) (fs : List (String × Value)) (pre : PyPath) : Value :=
  .record name (hydrateFields fs pre)

/-- Pairwise distinctness (under Python `==`) of a list of dict keys. -/
def keysNodupB : List Value → Bool
  | [] => true
  | k :: rest => !(rest.any (fun k2 => Value.beq k2 k)) && keysNodupB rest

mutual

/-- Invariant making `update_attr_value` the identity: every path the
single-value rule can reach is already absolute. -/
def pathsHydrated : Value → Bool
  | .path p => p.absolute
  | .record _ fs => fieldsHydrated fs
  | _ => true

def fieldsHydrated : List (String × Value) → Bool
  | [] => true
  | (_, v) :: rest => fieldHydrated v && fieldsHydrated rest

/-- Invariant making the per-field walk the identity: paths reachable
through one level of dict/list rebuilding are absolute, and dict keys
are pairwise distinct (so the dict comprehension rebuilds the dict
unchanged). -/
def fieldHydrated : Value → Bool
  | .map es => entriesHydrated es && keysNodupB (es.map Prod.fst)
  | .list xs => elemsHydrated xs
  | v => pathsHydrated v

def entriesHydrated : List (Value × Value) → Bool
  | [] => true
  | (k, v) :: rest => pathsHydrated k && pathsHydrated v && entriesHydrated rest

def elemsHydrated : List Value → Bool
  | [] => true
  | v :: rest => pathsHydrated v && elemsHydrated rest

end

mutual

/-- Path erasure: replace every path leaf by a fixed token, keeping all
structure (record type and field names, list lengths, dict entries) and
every other leaf intact. Two values with equal erasures have the same
shape and agree on every non-Path leaf. -/
def stripPaths : Value → Value
  | .path _ => .path ⟨false, []⟩
  | .record n fs => .record n (stripFields fs)
  | .list xs => .list (stripElems xs)
  | .map es => .map (stripEntries es)
  | v => v

def stripFields : List (String × Value) → List (String × Value)
  | [] => []
  | (n, v) :: rest => (n, stripPaths v) :: stripFields rest

def stripEntries : List (Value × Value) → List (Value × Value)
  | [] => []
  | (k, v) :: rest => (stripPaths k, stripPaths v) :: stripEntries rest

def stripElems : List Value → List Value
  | [] => []
  | v :: rest => stripPaths v :: stripElems rest

end

mutual

/-- No dict rebuilt by the hydration walk loses entries: at every dict
the walk reaches, the hydrated keys stay pairwise distinct. -/
def updateNoCollisions : Value → PyPath → Bool
  | .record _ fs, pre => fieldsNoCollisions fs pre
  | _, _ => true

def fieldsNoCollisions : List (String × Value) → PyPath → Bool
  | [], _ => true
  | (_, v) :: rest, pre => fieldNoCollisions v pre && fieldsNoCollisions rest pre

def fieldNoCollisions : Value → PyPath → Bool
  | .map es, pre =>
      keysNodupB ((hydrateEntries es pre).map Prod.fst) && entriesNoCollisions es pre
  | .list xs, pre => elemsNoCollisions xs pre
  | .record _ fs, pre => fieldsNoCollisions fs pre
  | _, _ => true

def entriesNoCollisions : List (Value × Value) → PyPath → Bool
  | [], _ => true
  | (k, v) :: rest, pre =>
      updateNoCollisions k pre && updateNoCollisions v pre && entriesNoCollisions rest pre

def elemsNoCollisions : List Value → PyPath → Bool
  | [], _ => true
  | v :: rest, pre => updateNoCollisions v pre && elemsNoCollisions rest pre

end

/-- The source's `update_attr_value` dispatches attrs records to
`insert_path_prefix`. -/
theorem update_attr_value_record (name : String) (fs : List (String × Value)) (pre : PyPath) :
    update_attr_value (.record name fs) pre = insert_path_prefix name fs pre := rfl

/-- Faithfulness bridge: on values that are neither dicts nor updatable
iterables, the per-field branch of the walk is `update_attr_value`. -/
theorem hydrateFieldValue_eq_update (v : Value) (pre : PyPath)
    (h : (isPyIterable v && iterable_values_are_updatable v) = false)
    (h2 : isPyDict v = false) :
    hydrateFieldValue v pre = update_attr_value v pre := by
  cases v <;> simp_all [isPyIterable, iterable_values_are_updatable, isPyDict,
    hydrateFieldValue, update_attr_value]

theorem hydrateFieldValue_eq_update_witness :
    hydrateFieldValue (.str "a") ⟨false, ["p"]⟩ = update_attr_value (.str "a") ⟨false, ["p"]⟩ :=
  hydrateFieldValue_eq_update (.str "a") ⟨false, ["p"]⟩ (by decide) (by decide)

example : update_attr_value (.str "s") ⟨false, []⟩ = .str "s" := rfl

example :
    update_attr_value (.record "C" [("out", .path ⟨false, ["data"]⟩), ("n", .str "x")])
        ⟨true, ["root"]⟩ =
      .record "C" [("out", .path ⟨true, ["root", "data"]⟩), ("n", .str "x")] := rfl

/-- Model of `PurePath.name`: the final component, `""` for a bare root
or empty path. -/
def pyName (p : PyPath) : String := (p.parts.getLast?).getD ""

/-- Index of the last `'.'` in a component, if any. -/
def lastDotIndex (cs : List Char) : Option Nat :=
  ((List.range cs.length).filter (fun i => cs.get? i = some '.')).getLast?

/-- Model of `PurePath.stem` applied to a name: everything before the
suffix; a dot in first or last position starts no suffix. -/
def pyNameStem (nm : String) : String :=
  let cs := nm.toList
  match lastDotIndex cs with
  | some i => if 0 < i ∧ i < cs.length - 1 then ⟨cs.take i⟩ else nm
  | none => nm

/-- Model of `PurePath.with_suffix`: replace the final component's
suffix. (The source raises for a path with an empty name; that case is
never reached by the embedded callers, which pass notebook paths.) -/
def with_suffix (p : PyPath) (ext : String) : PyPath :=
  if p.parts.isEmpty then p
  else ⟨p.absolute, p.parts.dropLast ++ [pyNameStem (pyName p) ++ ext]⟩

/-- Model of `str(path)` for a POSIX pure path. -/
def pyStr (p : PyPath) : String :=
  if p.absolute then "/" ++ String.intercalate "/" p.parts
  else if p.parts.isEmpty then "." else String.intercalate "/" p.parts

/-- Model of Python `repr` on the plain identifier strings used as
`step_config_id`s. -/
def pyRepr (s : String) : String := "'" ++ s ++ "'"

example : pyStr (with_suffix ⟨false, ["notebook", "plot-one"]⟩ ".py") = "notebook/plot-one.py" := by
  decide

/-- Model of the `NotebookConfigLike` step-configuration records: a
`step_config_id` string plus the rest of the record's data. -/
structure StepConfig where
  step_config_id : String
  payload : Value
deriving Repr, DecidableEq

/-- Embedding of `config_handling.get_step_config_ids`: one
`step_config_id` per step configuration, in order. (The source's
`AttributeError` branch for records lacking the attribute cannot arise
in the typed embedding.) -/
def get_step_config_ids (step_configs : List StepConfig) : List String :=
  step_configs.map (fun c => c.step_config_id)

/-- One step of collecting distinct elements in first-encounter order. -/
def foStep (acc : List String) (x : String) : List String :=
  if x ∈ acc then acc else acc ++ [x]

/-- Model of iterating a Python `collections.Counter`'s keys: first
encounter order, each element once. Its length is `len(set(l))`. -/
def firstOccurrences (l : List String) : List String :=
  l.foldl foStep []

/-- Embedding of `config_helpers.assert_step_config_ids_are_unique`:
`len(set(ids)) != len(inp)` fails with an `AssertionError` naming the
ids whose `Counter` count exceeds one, in first-encounter order. -/
def assert_step_config_ids_are_unique (inp : List StepConfig) : Except (List String) Unit :=
  let step_config_ids := get_step_config_ids inp
  if (firstOccurrences step_config_ids).length ≠ inp.length then
    .error ((firstOccurrences step_config_ids).filter (fun i => 1 < step_config_ids.count i))
  else .ok ()

/-- Loop of `config_handling.get_config_for_step_id`: return the first
record whose `step_config_id` matches, accumulating the ids seen;
exhaustion raises a `ValueError` whose message carries the requested id
and the accumulated available ids. -/
def get_config_for_step_id_loop (target : String) :
    List StepConfig → List String → Except (String × List String) StepConfig
  | [], acc => .error (target, acc)
  | poss :: rest, acc =>
      if poss.step_config_id = target then .ok poss
      else get_config_for_step_id_loop target rest (acc ++ [poss.step_config_id])

/-- Embedding of `config_handling.get_config_for_step_id`, applied to
the sequence found at the `step` attribute of the configuration. -/
def get_config_for_step_id (possibilities : List StepConfig) (step_config_id : String) :
    Except (String × List String) StepConfig :=
  get_config_for_step_id_loop step_config_id possibilities []

/-- Embedding of `notebook.UnconfiguredNotebook`. -/
structure UnconfiguredNotebook where
  notebook_path : PyPath
  raw_notebook_ext : String
  summary : String
  doc : String
deriving Repr, DecidableEq

/-- Embedding of `notebook.ConfiguredNotebook`: the unconfigured
notebook plus dependencies, targets, the configuration file path, the
`step_config_id` and the optional configuration-value sequence. -/
structure ConfiguredNotebook where
  unconfigured_notebook : UnconfiguredNotebook
  dependencies : List PyPath
  targets : List PyPath
  config_file : PyPath
  step_config_id : String
  configuration : Option (List Value)
deriving Repr, DecidableEq

/-- The serializer capability (`typing.Converter`): `dumps` takes the
value and the `sort_keys` flag. -/
structure Converter where
  dumps : List Value → Bool → String

/-- The keyword arguments `to_doit_task` binds to the `run_notebook`
action, under the source's keyword names. -/
structure NotebookAction where
  base_notebook : PyPath
  unexecuted_notebook : PyPath
  executed_notebook : PyPath
  notebook_parameters : List (String × String)
deriving Repr, DecidableEq

/-- Change-detection predicates recognised by the build runner; the
source wraps the serialized configuration in `doit.tools.config_changed`. -/
inductive UptodatePred where
  | config_changed (serialized : String)
deriving Repr, DecidableEq

/-- Model of a `doit` task dict (`typing.DoitTaskSpec`): base tasks
carry only `basename`/`name`/`doc`, so the remaining keys are optional
(`none` models an absent key). -/
structure DoitTaskSpec where
  basename : String
  name : Option String
  doc : String
  actions : Option (List NotebookAction)
  targets : Option (List PyPath)
  file_dep : Option (List PyPath)
  clean : Option Bool
  uptodate : Option (List UptodatePred)
deriving Repr, DecidableEq

/-- The raw notebook's concrete path computed by `to_doit_task`:
`root_dir_raw_notebooks / notebook_path.with_suffix(raw_notebook_ext)`. -/
def raw_notebook_path (nb : ConfiguredNotebook) (root_dir_raw_notebooks : PyPath) : PyPath :=
  pyJoin root_dir_raw_notebooks
    (with_suffix nb.unconfigured_notebook.notebook_path nb.unconfigured_notebook.raw_notebook_ext)

/-- Embedding of `notebook.ConfiguredNotebook.to_doit_task`. The task
starts from the shared dict literal of the source; with no
configuration-value sequence the config file is appended to `file_dep`
and no `uptodate` key is set; with one, a missing converter raises a
`ValueError` (modelled as `Except.error` carrying the message), and
otherwise `uptodate` is the one-element tuple wrapping the sort-keyed
dump in `config_changed`. -/
def to_doit_task (nb : ConfiguredNotebook)
    (root_dir_raw_notebooks notebook_output_dir : PyPath)
    (base_task : DoitTaskSpec) (converter : Option Converter) (clean : Bool) :
    Except String DoitTaskSpec :=
  let raw_notebook := raw_notebook_path nb root_dir_raw_notebooks
  let notebook_name := pyName nb.unconfigured_notebook.notebook_path
  let unexecuted_notebook := pyJoin notebook_output_dir ⟨false, [notebook_name ++ "_unexecuted.ipynb"]⟩
  let executed_notebook := pyJoin notebook_output_dir ⟨false, [notebook_name ++ ".ipynb"]⟩
  let dependencies := nb.dependencies ++ [raw_notebook]
  let notebook_parameters :=
    [("config_file", pyStr nb.config_file), ("step_config_id", nb.step_config_id)]
  let task : DoitTaskSpec :=
    { basename := base_task.basename
      name := some nb.step_config_id
      doc := base_task.doc ++ ". step_config_id=" ++ pyRepr nb.step_config_id
      actions := some [⟨raw_notebook, unexecuted_notebook, executed_notebook, notebook_parameters⟩]
      targets := some nb.targets
      file_dep := some dependencies
      clean := some clean
      uptodate := none }
  match nb.configuration with
  | none => .ok { task with file_dep := some (dependencies ++ [nb.config_file]) }
  | some configuration =>
      match converter with
      | none => .error "If `self.configuration is not None` then `converter` must be supplied"
      | some conv =>
          .ok { task with uptodate := some [.config_changed (conv.dumps configuration true)] }

/-- Errors escaping `notebook_run.run_notebook`: either the original
exception propagating as-is, or a `NotebookExecutionException` wrapping
the original exception together with the offending notebook path. -/
inductive RunError where
  | unwrapped (e : String)
  | wrapped (e : String) (notebook : PyPath)
deriving Repr, DecidableEq

/-- Calls `run_notebook` makes to its injected collaborators, in
order. -/
inductive NbEvent where
  | rewriteCall (raw unexecuted : PyPath)
  | executeCall (unexecuted executed : PyPath)
deriving Repr, DecidableEq

/-- Embedding of `notebook_run.run_notebook` with the rewriter and
executor injected as fallible functions. The rewriter call stands
before the `try` block, so its exception propagates as-is; the `try`
body (directory creation plus the executor call) re-raises any
exception as `NotebookExecutionException(exc, unexecuted_notebook)`.
The returned list records the collaborator calls made. -/
def run_notebook
    (notebook_rewriter : PyPath → PyPath → Except String Unit)
    (notebook_executor : PyPath → PyPath → List (String × String) → Except String Unit)
    (raw_notebook unexecuted_notebook executed_notebook : PyPath)
    (notebook_parameters : List (String × String)) :
    Except RunError Unit × List NbEvent :=
  match notebook_rewriter raw_notebook unexecuted_notebook with
  | .error e => (.error (.unwrapped e), [.rewriteCall raw_notebook unexecuted_notebook])
  | .ok _ =>
      match notebook_executor unexecuted_notebook executed_notebook notebook_parameters with
      | .error e =>
          (.error (.wrapped e unexecuted_notebook),
            [.rewriteCall raw_notebook unexecuted_notebook,
              .executeCall unexecuted_notebook executed_notebook])
      | .ok _ =>
          (.ok (),
            [.rewriteCall raw_notebook unexecuted_notebook,
              .executeCall unexecuted_notebook executed_notebook])

/-- Whether a `run_notebook` outcome is a wrapped execution failure. -/
def resultIsWrapped : Except RunError Unit → Bool
  | .error (.wrapped _ _) => true
  | _ => false

/-- Modelled from the spec: the module defining
`UnconfiguredNotebookBasedStep` (`pydoit_nb.notebook_step`) is not
among the provided source files, only its tests and callers are. Per
spec §4.4 step 1 and the integration test, the base task for a notebook
is a record with only `basename` (the notebook path and its summary),
no variant `name`, and the notebook's documentation. -/
def base_task_of (nb : UnconfiguredNotebook) : DoitTaskSpec :=
  { basename := "(" ++ pyStr nb.notebook_path ++ ") " ++ nb.summary
    name := none
    doc := nb.doc
    actions := none
    targets := none
    file_dep := none
    clean := none
    uptodate := none }

/-- Modelled from the spec: the per-variant notebook output directory
used by the missing step module, as exercised by its integration test
(`root_dir_output_run / "notebooks-executed" / step_name / step_config_id`). -/
def notebook_output_dir_for (root_dir_output_run : PyPath) (step_name step_config_id : String) :
    PyPath :=
  pyJoin root_dir_output_run ⟨false, ["notebooks-executed", step_name, step_config_id]⟩

/-- A placeholder task record, used only to state results of
`to_doit_task` whose success is separately guaranteed. -/
def emptyTaskSpec : DoitTaskSpec :=
  { basename := ""
    name := none
    doc := ""
    actions := none
    targets := none
    file_dep := none
    clean := none
    uptodate := none }

/-- Modelled from the spec: spec §4.4 step 4 builds one task per
(configuration id, configured notebook) pair via `to_doit_task`, using
the matching base task from step 1, in notebook order. -/
def gen_tasks_for_id (configured : List ConfiguredNotebook)
    (root_dir_raw_notebooks notebook_output_dir : PyPath)
    (converter : Option Converter) (clean : Bool) : Except String (List DoitTaskSpec) :=
  match configured with
  | [] => .ok []
  | c :: rest =>
      match to_doit_task c root_dir_raw_notebooks notebook_output_dir
          (base_task_of c.unconfigured_notebook) converter clean with
      | .error e => .error e
      | .ok t =>
          match gen_tasks_for_id rest root_dir_raw_notebooks notebook_output_dir
              converter clean with
          | .error e => .error e
          | .ok ts => .ok (t :: ts)

/-- Modelled from the spec: spec §4.4 steps 2-4 call the injected
configure function once per step-configuration id; a configure result
whose length differs from the unconfigured-notebook count fails with
the `NotImplementedError` message asserted by the integration test,
before any task of that group is produced. -/
def gen_configured_groups (step_name : String)
    (unconfigured_notebooks : List UnconfiguredNotebook)
    (configure_notebooks : String → List ConfiguredNotebook)
    (step_config_ids : List String)
    (root_dir_raw_notebooks root_dir_output_run : PyPath)
    (converter : Option Converter) (clean : Bool) : Except String (List DoitTaskSpec) :=
  match step_config_ids with
  | [] => .ok []
  | step_config_id :: rest =>
      if (configure_notebooks step_config_id).length ≠ unconfigured_notebooks.length then
        .error ("The number of unconfigured and configured notebooks is not the same. "
          ++ "We haven't yet thought through this use case. "
          ++ "Please raise an issue at https://github.com/climate-resource/pydoit-nb to discuss.")
      else
        match gen_tasks_for_id (configure_notebooks step_config_id) root_dir_raw_notebooks
            (notebook_output_dir_for root_dir_output_run step_name step_config_id)
            converter clean with
        | .error e => .error e
        | .ok group =>
            match gen_configured_groups step_name unconfigured_notebooks configure_notebooks
                rest root_dir_raw_notebooks root_dir_output_run converter clean with
            | .error e => .error e
            | .ok groups => .ok (group ++ groups)

/-- Modelled from the spec: `UnconfiguredNotebookBasedStep.gen_notebook_tasks`
(spec §4.4): yield one base task per unconfigured notebook, then, for
each step-configuration id found in the configuration bundle for this
step, the group of configured tasks in the supplied notebook order. -/
def gen_notebook_tasks (step_name : String)
    (unconfigured_notebooks : List UnconfiguredNotebook)
    (configure_notebooks : String → List ConfiguredNotebook)
    (step_config_ids : List String)
    (root_dir_raw_notebooks root_dir_output_run : PyPath)
    (converter : Option Converter) (clean : Bool) : Except String (List DoitTaskSpec) :=
  match gen_configured_groups step_name unconfigured_notebooks configure_notebooks
      step_config_ids root_dir_raw_notebooks root_dir_output_run converter clean with
  | .error e => .error e
  | .ok groups => .ok (unconfigured_notebooks.map base_task_of ++ groups)

/-
Sample inputs used by witnesses and counterexamples.
-/

def rawRootP : PyPath := ⟨true, ["root", "dir", "raw", "notebooks"]⟩

def outDirP : PyPath := ⟨true, ["out", "notebooks-executed", "plot", "default"]⟩

def sampleBase : DoitTaskSpec :=
  { basename := "(notebook/plot-one) Some summary"
    name := none
    doc := "Some docs"
    actions := none
    targets := none
    file_dep := none
    clean := none
    uptodate := none }

def sampleConv : Converter := ⟨fun vs sk => reprStr (vs, sk)⟩

def sampleUn : UnconfiguredNotebook :=
  ⟨⟨false, ["notebook", "plot-one"]⟩, ".py", "Some summary", "Some docs"⟩

def sampleNbNone : ConfiguredNotebook :=
  ⟨sampleUn, [⟨true, ["outputs", "results.csv"]⟩], [⟨true, ["outputs", "plot.pdf"]⟩],
    ⟨true, ["out", "config-hydrated.yaml"]⟩, "default", none⟩

def sampleNbCfg : ConfiguredNotebook :=
  { sampleNbNone with configuration := some [.str "hi", .arr [0]] }

def sampleUn2 : UnconfiguredNotebook :=
  ⟨⟨false, ["notebook", "path-to", "plot-two"]⟩, ".md", "Some summary here", "Some other docs"⟩

def sampleConfigure (id : String) : List ConfiguredNotebook :=
  [⟨sampleUn, [], [⟨true, ["out", "a.csv"]⟩], ⟨true, ["out", "cfg.yaml"]⟩, id, none⟩,
   ⟨sampleUn2, [], [⟨true, ["out", "b.csv"]⟩], ⟨true, ["out", "cfg.yaml"]⟩, id,
     some [.str "hi"]⟩]

def sampleHydV : Value :=
  .record "Config"
    [("out", .path ⟨false, ["rel"]⟩),
     ("m", .map [(.path ⟨false, ["k"]⟩, .path ⟨false, ["q"]⟩)]),
     ("xs", .list [.path ⟨false, ["e"]⟩]),
     ("s", .str "keep")]

/-
Claim theorems.
-/

/-- C1: with no configuration-value sequence, `to_doit_task` returns a
task whose `file_dep` is the declared dependencies, then the raw
notebook path, then the configuration file path, and which has no
`uptodate` entry; with a configuration-value sequence and a supplied
converter, the task's `uptodate` is the one-element tuple wrapping the
sort-keyed dump in the config-changed predicate, and `file_dep` is only
the declared dependencies plus the raw notebook path (so it does not
contain the configuration file when that file is not among them). -/
theorem to_doit_task_change_detection
    (nb : ConfiguredNotebook) (rootRaw outDir : PyPath)
    (base : DoitTaskSpec) (conv : Converter) (clean : Bool) :
    (nb.configuration = none →
      ∀ co : Option Converter,
        (to_doit_task nb rootRaw outDir base co clean).map (fun t => t.file_dep)
            = .ok (some (nb.dependencies ++ [raw_notebook_path nb rootRaw, nb.config_file])) ∧
          (to_doit_task nb rootRaw outDir base co clean).map (fun t => t.uptodate) = .ok none)
    ∧ (∀ cfg, nb.configuration = some cfg →
      (to_doit_task nb rootRaw outDir base (some conv) clean).map (fun t => t.uptodate)
          = .ok (some [UptodatePred.config_changed (conv.dumps cfg true)]) ∧
        (to_doit_task nb rootRaw outDir base (some conv) clean).map (fun t => t.file_dep)
            = .ok (some (nb.dependencies ++ [raw_notebook_path nb rootRaw])) ∧
        (nb.config_file ∉ nb.dependencies → nb.config_file ≠ raw_notebook_path nb rootRaw →
          nb.config_file ∉ nb.dependencies ++ [raw_notebook_path nb rootRaw])) := by
  constructor
  · intro h co
    simp [to_doit_task, h, Except.map]
  · intro cfg h
    refine ⟨?_, ?_, ?_⟩
    · simp [to_doit_task, h, Except.map]
    · simp [to_doit_task, h, Except.map]
    · intro h1 h2
      simp only [List.mem_append, List.mem_singleton]
      rintro (hd | hr)
      · exact h1 hd
      · exact h2 hr

theorem to_doit_task_change_detection_witness :
    ((to_doit_task sampleNbNone rawRootP outDirP sampleBase (some sampleConv) true).map
        (fun t => t.file_dep)
      = .ok (some (sampleNbNone.dependencies
          ++ [raw_notebook_path sampleNbNone rawRootP, sampleNbNone.config_file])))
    ∧ ((to_doit_task sampleNbNone rawRootP outDirP sampleBase (some sampleConv) true).map
        (fun t => t.uptodate) = .ok none)
    ∧ ((to_doit_task sampleNbCfg rawRootP outDirP sampleBase (some sampleConv) true).map
        (fun t => t.uptodate)
      = .ok (some [UptodatePred.config_changed (sampleConv.dumps [.str "hi", .arr [0]] true)]))
    ∧ sampleNbCfg.config_file ∉
        sampleNbCfg.dependencies ++ [raw_notebook_path sampleNbCfg rawRootP] :=
  ⟨((to_doit_task_change_detection sampleNbNone rawRootP outDirP sampleBase sampleConv true).1
      rfl (some sampleConv)).1,
   ((to_doit_task_change_detection sampleNbNone rawRootP outDirP sampleBase sampleConv true).1
      rfl (some sampleConv)).2,
   ((to_doit_task_change_detection sampleNbCfg rawRootP outDirP sampleBase sampleConv true).2
      [.str "hi", .arr [0]] rfl).1,
   ((to_doit_task_change_detection sampleNbCfg rawRootP outDirP sampleBase sampleConv true).2
      [.str "hi", .arr [0]] rfl).2.2 (by decide) (by decide)⟩

/-- C6: `to_doit_task` fails (with the source's `ValueError` message)
exactly when a configuration-value sequence is present and no converter
was supplied; in every other case it returns a task record. -/
theorem to_doit_task_usage_error_iff
    (nb : ConfiguredNotebook) (rootRaw outDir : PyPath)
    (base : DoitTaskSpec) (co : Option Converter) (clean : Bool) :
    ((∃ e, to_doit_task nb rootRaw outDir base co clean = .error e) ↔
      (nb.configuration ≠ none ∧ co = none))
    ∧ (nb.configuration ≠ none ∧ co = none →
      to_doit_task nb rootRaw outDir base co clean
        = .error "If `self.configuration is not None` then `converter` must be supplied") := by
  constructor
  · constructor
    · rintro ⟨e, he⟩
      cases hc : nb.configuration with
      | none => simp [to_doit_task, hc] at he
      | some cfg =>
          cases hco : co with
          | none => simp [hco]
          | some conv => simp [to_doit_task, hc, hco] at he
    · rintro ⟨h1, h2⟩
      cases hc : nb.configuration with
      | none => exact absurd hc h1
      | some cfg =>
          subst h2
          exact ⟨"If `self.configuration is not None` then `converter` must be supplied",
            by simp [to_doit_task, hc]⟩
  · rintro ⟨h1, h2⟩
    cases hc : nb.configuration with
    | none => exact absurd hc h1
    | some cfg =>
        subst h2
        simp [to_doit_task, hc]

theorem foStep_foldl_mem (l : List String) :
    ∀ acc x, (x ∈ l.foldl foStep acc ↔ x ∈ acc ∨ x ∈ l) := by
  induction l with
  | nil => simp
  | cons y ys ih =>
      intro acc x
      rw [List.foldl_cons, ih]
      by_cases hy : y ∈ acc
      · simp only [foStep, if_pos hy, List.mem_cons]
        constructor
        · rintro (h | h)
          · exact Or.inl h
          · exact Or.inr (Or.inr h)
        · rintro (h | h | h)
          · exact Or.inl h
          · exact Or.inl (h ▸ hy)
          · exact Or.inr h
      · simp only [foStep, if_neg hy, List.mem_append, List.mem_singleton, List.mem_cons]
        tauto

theorem foStep_foldl_le (l : List String) :
    ∀ acc, (l.foldl foStep acc).length ≤ acc.length + l.length := by
  induction l with
  | nil => simp
  | cons z zs ih =>
      intro acc
      rw [List.foldl_cons]
      have h1 := ih (foStep acc z)
      have h2 : (foStep acc z).length ≤ acc.length + 1 := by
        by_cases hz : z ∈ acc <;> simp [foStep, hz]
      simp only [List.length_cons]
      omega

theorem foStep_foldl_length (l : List String) :
    ∀ acc, ((l.foldl foStep acc).length = acc.length + l.length ↔
      (l.Nodup ∧ ∀ x ∈ l, x ∉ acc)) := by
  induction l with
  | nil => simp
  | cons y ys ih =>
      intro acc
      rw [List.foldl_cons]
      by_cases hy : y ∈ acc
      · rw [show foStep acc y = acc from if_pos hy]
        have hle := foStep_foldl_le ys acc
        constructor
        · intro h
          simp only [List.length_cons] at h
          omega
        · rintro ⟨-, hall⟩
          exact absurd hy (hall y (List.mem_cons_self y ys))
      · rw [show foStep acc y = acc ++ [y] from if_neg hy]
        have harith : acc.length + (y :: ys).length = (acc ++ [y]).length + ys.length := by
          simp only [List.length_append, List.length_cons, List.length_nil]
          omega
        rw [harith, ih (acc ++ [y])]
        simp only [List.nodup_cons, List.mem_cons, List.mem_append, List.mem_singleton, not_or,
          List.not_mem_nil, not_false_iff, and_true]
        constructor
        · rintro ⟨hnd, hall⟩
          refine ⟨⟨fun hmem => (hall y hmem).2 rfl, hnd⟩, ?_⟩
          intro x hx
          rcases hx with rfl | hx
          · exact hy
          · exact (hall x hx).1
        · rintro ⟨⟨hyys, hnd⟩, hall⟩
          refine ⟨hnd, fun x hx => ⟨hall x (Or.inr hx), fun he => hyys (he ▸ hx)⟩⟩

/-- C7: the uniqueness validator succeeds exactly when the
`step_config_id`s are pairwise distinct; on failure the named ids are
exactly those occurring more than once in the collection. -/
theorem assert_step_config_ids_unique_spec (inp : List StepConfig) :
    (assert_step_config_ids_are_unique inp = .ok () ↔ (get_step_config_ids inp).Nodup)
    ∧ ∀ d, assert_step_config_ids_are_unique inp = .error d →
        ∀ x, (x ∈ d ↔ 1 < (get_step_config_ids inp).count x) := by
  have hlen : (get_step_config_ids inp).length = inp.length := by
    simp [get_step_config_ids]
  have hiff : (firstOccurrences (get_step_config_ids inp)).length = inp.length ↔
      (get_step_config_ids inp).Nodup := by
    rw [← hlen]
    simpa using foStep_foldl_length (get_step_config_ids inp) []
  constructor
  · rw [assert_step_config_ids_are_unique]
    split
    · rename_i hcond
      simp only [reduceCtorEq, false_iff]
      intro hnd
      exact hcond (hiff.mpr hnd)
    · rename_i hcond
      rw [not_ne_iff] at hcond
      simp only [true_iff]
      exact hiff.mp hcond
  · intro d hd x
    rw [assert_step_config_ids_are_unique] at hd
    split at hd
    · rename_i hcond
      rw [Except.error.injEq] at hd
      subst hd
      rw [List.mem_filter]
      have hmem : x ∈ firstOccurrences (get_step_config_ids inp) ↔
          x ∈ get_step_config_ids inp := by
        simpa using foStep_foldl_mem (get_step_config_ids inp) [] x
      constructor
      · rintro ⟨-, hcnt⟩
        exact of_decide_eq_true hcnt
      · intro hcnt
        refine ⟨hmem.mpr ?_, decide_eq_true hcnt⟩
        exact List.count_pos_iff.mp (by omega)
    · exact absurd hd (by simp)

theorem assert_step_config_ids_unique_witness :
    assert_step_config_ids_are_unique
        [⟨"1", .str "a"⟩, ⟨"2", .str "b"⟩, ⟨"2", .str "c"⟩, ⟨"3", .str "d"⟩]
      = .error ["2"]
    ∧ ("2" ∈ ["2"] ↔ 1 < (get_step_config_ids
        [⟨"1", .str "a"⟩, ⟨"2", .str "b"⟩, ⟨"2", .str "c"⟩, ⟨"3", .str "d"⟩]).count "2") :=
  ⟨rfl,
   (assert_step_config_ids_unique_spec
      [⟨"1", .str "a"⟩, ⟨"2", .str "b"⟩, ⟨"2", .str "c"⟩, ⟨"3", .str "d"⟩]).2
     ["2"] rfl "2"⟩

theorem get_config_for_step_id_loop_spec (target : String) (ps : List StepConfig) :
    ∀ acc, get_config_for_step_id_loop target ps acc =
      match ps.find? (fun p => p.step_config_id == target) with
      | some c => .ok c
      | none => .error (target, acc ++ get_step_config_ids ps) := by
  induction ps with
  | nil => intro acc; simp [get_config_for_step_id_loop, get_step_config_ids]
  | cons p rest ih =>
      intro acc
      rw [get_config_for_step_id_loop]
      by_cases hp : p.step_config_id = target
      · rw [if_pos hp, List.find?_cons_of_pos _ (by simpa using hp)]
      · rw [if_neg hp, ih (acc ++ [p.step_config_id]),
          List.find?_cons_of_neg _ (by simpa using hp)]
        cases rest.find? (fun q => q.step_config_id == target) with
        | some c => rfl
        | none => simp [get_step_config_ids]

/-- C8: the step-config lookup returns the first record in sequence
order whose `step_config_id` equals the requested id, and when none
matches it fails with an error carrying the requested id and the
`step_config_id` of every record in the sequence. -/
theorem get_config_for_step_id_first_match (possibilities : List StepConfig)
    (step_config_id : String) :
    get_config_for_step_id possibilities step_config_id =
      match possibilities.find? (fun p => p.step_config_id == step_config_id) with
      | some c => .ok c
      | none => .error (step_config_id, get_step_config_ids possibilities) := by
  rw [get_config_for_step_id, get_config_for_step_id_loop_spec]
  cases possibilities.find? (fun p => p.step_config_id == step_config_id) with
  | some c => rfl
  | none => simp

theorem to_doit_task_usage_error_iff_witness :
    (to_doit_task sampleNbCfg rawRootP outDirP sampleBase none true
      = .error "If `self.configuration is not None` then `converter` must be supplied")
    ∧ ¬∃ e, to_doit_task sampleNbNone rawRootP outDirP sampleBase none true = .error e :=
  ⟨(to_doit_task_usage_error_iff sampleNbCfg rawRootP outDirP sampleBase none true).2
      ⟨by simp [sampleNbCfg], rfl⟩,
   fun h =>
     ((to_doit_task_usage_error_iff sampleNbNone rawRootP outDirP sampleBase none true).1.mp
        h).1 rfl⟩

def rawP : PyPath := ⟨true, ["raw", "nb.py"]⟩

def unexP : PyPath := ⟨true, ["out", "nb_unexecuted.ipynb"]⟩

def exeP : PyPath := ⟨true, ["out", "nb.ipynb"]⟩

/-- C9 counterexample: an error raised by the notebook rewriter (the
first phase of producing the executed notebook) propagates as the
original exception, not wrapped in the execution-failure error, because
the source calls the rewriter before its `try` block. -/
theorem run_notebook_rewrite_error_unwrapped_cex :
    (run_notebook (fun _ _ => .error "boom") (fun _ _ _ => .ok ()) rawP unexP exeP []).1
        = .error (.unwrapped "boom")
    ∧ resultIsWrapped
        (run_notebook (fun _ _ => .error "boom") (fun _ _ _ => .ok ()) rawP unexP exeP []).1
      = false :=
  ⟨rfl, rfl⟩

/-- C9 (amended): an error raised inside the execution phase (the
`try` block wrapping directory creation and the external executor) is
re-raised wrapped in the execution-failure error carrying the original
cause and the offending (unexecuted) notebook path; an error from the
rewrite phase propagates unwrapped; and `run_notebook` never retries:
it calls the rewriter exactly once and the executor at most once. -/
theorem run_notebook_error_wrapping
    (notebook_rewriter : PyPath → PyPath → Except String Unit)
    (notebook_executor : PyPath → PyPath → List (String × String) → Except String Unit)
    (raw unex exe : PyPath) (params : List (String × String)) :
    (∀ e, notebook_rewriter raw unex = .error e →
      run_notebook notebook_rewriter notebook_executor raw unex exe params
        = (.error (.unwrapped e), [.rewriteCall raw unex]))
    ∧ (∀ e, notebook_rewriter raw unex = .ok () →
        notebook_executor unex exe params = .error e →
      run_notebook notebook_rewriter notebook_executor raw unex exe params
        = (.error (.wrapped e unex), [.rewriteCall raw unex, .executeCall unex exe]))
    ∧ ((run_notebook notebook_rewriter notebook_executor raw unex exe params).2.count
          (.executeCall unex exe) ≤ 1
        ∧ (run_notebook notebook_rewriter notebook_executor raw unex exe params).2.count
          (.rewriteCall raw unex) = 1) := by
  refine ⟨?_, ?_, ?_⟩
  · intro e he
    simp [run_notebook, he]
  · intro e hr he
    simp [run_notebook, hr, he]
  · cases hr : notebook_rewriter raw unex with
    | error e =>
        simp [run_notebook, hr, List.count_cons]
    | ok u =>
        cases u
        cases he : notebook_executor unex exe params with
        | error e => simp [run_notebook, hr, he, List.count_cons]
        | ok u =>
            cases u
            simp [run_notebook, hr, he, List.count_cons]

theorem value_beq_symm (a b : Value) : Value.beq a b = Value.beq b a := by
  by_cases h : a = b
  · subst h
    rfl
  · have ha : Value.beq a b = false := by
      rw [← Bool.not_eq_true, value_beq_iff]
      exact h
    have hb : Value.beq b a = false := by
      rw [← Bool.not_eq_true, value_beq_iff]
      exact fun he => h he.symm
    rw [ha, hb]

theorem any_beq_eq_false_iff (d : List (Value × Value)) (k : Value) :
    (d.any (fun e => Value.beq e.1 k) = false) ↔ ∀ e ∈ d, e.1 ≠ k := by
  rw [← Bool.not_eq_true, List.any_eq_true]
  simp only [value_beq_iff]
  push_neg
  rfl

theorem keysNodupB_iff (l : List Value) : keysNodupB l = true ↔ l.Nodup := by
  induction l with
  | nil => simp [keysNodupB]
  | cons k rest ih =>
      rw [keysNodupB, List.nodup_cons, ← ih, Bool.and_eq_true, Bool.not_eq_true']
      have : (rest.any (fun k2 => Value.beq k2 k) = false) ↔ k ∉ rest := by
        rw [← Bool.not_eq_true, List.any_eq_true]
        simp only [value_beq_iff]
        constructor
        · intro h hm
          exact h ⟨k, hm, rfl⟩
        · rintro h ⟨k2, hm, rfl⟩
          exact h hm
      rw [this]

theorem hydrateFields_eq_map (fs : List (String × Value)) (pre : PyPath) :
    hydrateFields fs pre = fs.map (fun f => (f.1, hydrateFieldValue f.2 pre)) := by
  induction fs with
  | nil => rfl
  | cons f rest ih =>
      cases f with
      | mk n v => rw [hydrateFields, ih, List.map_cons]

theorem hydrateEntries_eq_map (es : List (Value × Value)) (pre : PyPath) :
    hydrateEntries es pre
      = es.map (fun e => (update_attr_value e.1 pre, update_attr_value e.2 pre)) := by
  induction es with
  | nil => rfl
  | cons e rest ih =>
      cases e with
      | mk k v => rw [hydrateEntries, ih, List.map_cons]

theorem hydrateElems_eq_map (xs : List Value) (pre : PyPath) :
    hydrateElems xs pre = xs.map (fun v => update_attr_value v pre) := by
  induction xs with
  | nil => rfl
  | cons v rest ih => rw [hydrateElems, ih, List.map_cons]

theorem pyDictInsert_append (d : List (Value × Value)) (kv : Value × Value)
    (h : ∀ e ∈ d, e.1 ≠ kv.1) : pyDictInsert d kv = d ++ [kv] := by
  have hany : d.any (fun e => Value.beq e.1 kv.1) = false := (any_beq_eq_false_iff d kv.1).mpr h
  simp [pyDictInsert, hany]

theorem foldl_insert_eq_append (l : List (Value × Value)) :
    ∀ acc, (∀ kv ∈ l, ∀ e ∈ acc, e.1 ≠ kv.1) → (l.map Prod.fst).Nodup →
      l.foldl pyDictInsert acc = acc ++ l := by
  induction l with
  | nil => simp
  | cons kv tl ih =>
      intro acc h1 h2
      rw [List.foldl_cons, pyDictInsert_append acc kv (h1 kv (List.mem_cons_self kv tl))]
      rw [List.map_cons, List.nodup_cons] at h2
      rw [ih (acc ++ [kv]) ?_ h2.2]
      · rw [List.append_assoc, List.singleton_append]
      · intro x hx e he
        rcases List.mem_append.mp he with hea | hea
        · exact h1 x (List.mem_cons_of_mem kv hx) e hea
        · rw [List.mem_singleton] at hea
          subst hea
          intro hfst
          exact h2.1 (hfst ▸ List.mem_map_of_mem Prod.fst hx)

theorem pyDictRebuild_eq_self (l : List (Value × Value)) (h : (l.map Prod.fst).Nodup) :
    pyDictRebuild l = l := by
  rw [pyDictRebuild, foldl_insert_eq_append l [] (by simp) h, List.nil_append]

theorem pyDictInsert_keys_nodup (d : List (Value × Value)) (kv : Value × Value)
    (h : (d.map Prod.fst).Nodup) : ((pyDictInsert d kv).map Prod.fst).Nodup := by
  rw [pyDictInsert]
  split
  · have hk : (d.map (fun e => if Value.beq e.1 kv.1 then (e.1, kv.2) else e)).map Prod.fst
        = d.map Prod.fst := by
      rw [List.map_map]
      apply List.map_congr_left
      intro e he
      by_cases hb : Value.beq e.1 kv.1 <;> simp [hb]
    rw [hk]
    exact h
  · rename_i hcond
    rw [Bool.not_eq_true] at hcond
    have hnotin : kv.1 ∉ d.map Prod.fst := by
      intro hm
      obtain ⟨e, he, heq⟩ := List.mem_map.mp hm
      exact (any_beq_eq_false_iff d kv.1).mp hcond e he heq
    rw [List.map_append]
    simp only [List.map_cons, List.map_nil]
    rw [List.nodup_append]
    refine ⟨h, List.nodup_singleton kv.1, ?_⟩
    intro a ha hb
    rw [List.mem_singleton] at hb
    exact hnotin (hb ▸ ha)

theorem foldl_insert_keys_nodup (l : List (Value × Value)) :
    ∀ acc, (acc.map Prod.fst).Nodup → ((l.foldl pyDictInsert acc).map Prod.fst).Nodup := by
  induction l with
  | nil => exact fun acc h => h
  | cons kv tl ih =>
      intro acc h
      rw [List.foldl_cons]
      exact ih (pyDictInsert acc kv) (pyDictInsert_keys_nodup acc kv h)

theorem pyDictRebuild_keys_nodup (l : List (Value × Value)) :
    ((pyDictRebuild l).map Prod.fst).Nodup := by
  rw [pyDictRebuild]
  exact foldl_insert_keys_nodup l [] (by simp)

theorem pyDictInsert_forall (P1 P2 : Value → Prop) (d : List (Value × Value))
    (kv : Value × Value) (hd : ∀ x ∈ d, P1 x.1 ∧ P2 x.2) (hk : P1 kv.1) (hv : P2 kv.2) :
    ∀ x ∈ pyDictInsert d kv, P1 x.1 ∧ P2 x.2 := by
  intro x hx
  rw [pyDictInsert] at hx
  split at hx
  · obtain ⟨e, he, heq⟩ := List.mem_map.mp hx
    by_cases hb : Value.beq e.1 kv.1 = true
    · rw [if_pos hb] at heq
      subst heq
      exact ⟨(hd e he).1, hv⟩
    · rw [if_neg hb] at heq
      subst heq
      exact hd e he
  · rcases List.mem_append.mp hx with hm | hm
    · exact hd x hm
    · rw [List.mem_singleton] at hm
      subst hm
      exact ⟨hk, hv⟩

theorem foldl_insert_forall (P1 P2 : Value → Prop) (l : List (Value × Value)) :
    ∀ acc, (∀ x ∈ l, P1 x.1 ∧ P2 x.2) → (∀ x ∈ acc, P1 x.1 ∧ P2 x.2) →
      ∀ x ∈ l.foldl pyDictInsert acc, P1 x.1 ∧ P2 x.2 := by
  induction l with
  | nil => exact fun acc _ hacc => hacc
  | cons kv tl ih =>
      intro acc hl hacc
      rw [List.foldl_cons]
      refine ih (pyDictInsert acc kv) (fun x hx => hl x (List.mem_cons_of_mem kv hx)) ?_
      exact pyDictInsert_forall P1 P2 acc kv hacc (hl kv (List.mem_cons_self kv tl)).1
        (hl kv (List.mem_cons_self kv tl)).2

theorem pyDictRebuild_forall (P1 P2 : Value → Prop) (l : List (Value × Value))
    (hl : ∀ x ∈ l, P1 x.1 ∧ P2 x.2) : ∀ x ∈ pyDictRebuild l, P1 x.1 ∧ P2 x.2 := by
  rw [pyDictRebuild]
  exact foldl_insert_forall P1 P2 l [] hl (by simp)

theorem entriesHydrated_iff (l : List (Value × Value)) :
    entriesHydrated l = true ↔
      ∀ x ∈ l, pathsHydrated x.1 = true ∧ pathsHydrated x.2 = true := by
  induction l with
  | nil => simp [entriesHydrated]
  | cons e rest ih =>
      cases e with
      | mk k v =>
          rw [entriesHydrated, Bool.and_eq_true, Bool.and_eq_true, ih]
          simp only [List.forall_mem_cons]

theorem run_notebook_error_wrapping_witness :
    run_notebook (fun _ _ => .ok ()) (fun _ _ _ => .error "bang") rawP unexP exeP []
        = (.error (.wrapped "bang" unexP), [.rewriteCall rawP unexP, .executeCall unexP exeP])
    ∧ (run_notebook (fun _ _ => .ok ()) (fun _ _ _ => .error "bang") rawP unexP exeP []).2.count
        (.rewriteCall rawP unexP) = 1 :=
  ⟨(run_notebook_error_wrapping (fun _ _ => .ok ()) (fun _ _ _ => .error "bang")
      rawP unexP exeP []).2.1 "bang" rfl rfl,
   (run_notebook_error_wrapping (fun _ _ => .ok ()) (fun _ _ _ => .error "bang")
      rawP unexP exeP []).2.2.2⟩

mutual

theorem pathsHydrated_update_id (v : Value) (pre : PyPath) (h : pathsHydrated v = true) :
    update_attr_value v pre = v := by
  cases v with
  | path p =>
      rw [pathsHydrated] at h
      simp [update_attr_value, pyJoin, h]
  | record n fs =>
      rw [pathsHydrated] at h
      rw [update_attr_value, fieldsHydrated_id fs pre h]
  | str s => rfl
  | arr xs => rfl
  | quant xs u => rfl
  | list xs => rfl
  | map es => rfl

theorem fieldsHydrated_id (fs : List (String × Value)) (pre : PyPath)
    (h : fieldsHydrated fs = true) : hydrateFields fs pre = fs := by
  cases fs with
  | nil => rfl
  | cons f rest =>
      cases f with
      | mk n v =>
          rw [fieldsHydrated, Bool.and_eq_true] at h
          rw [hydrateFields, fieldHydrated_id v pre h.1, fieldsHydrated_id rest pre h.2]

theorem fieldHydrated_id (v : Value) (pre : PyPath) (h : fieldHydrated v = true) :
    hydrateFieldValue v pre = v := by
  cases v with
  | map es =>
      rw [fieldHydrated, Bool.and_eq_true] at h
      rw [hydrateFieldValue, entriesHydrated_id es pre h.1,
        pyDictRebuild_eq_self es ((keysNodupB_iff (es.map Prod.fst)).mp h.2)]
  | list xs =>
      rw [fieldHydrated] at h
      rw [hydrateFieldValue, elemsHydrated_id xs pre h]
  | record n fs =>
      simp only [fieldHydrated, pathsHydrated] at h
      rw [hydrateFieldValue, fieldsHydrated_id fs pre h]
  | path p =>
      simp only [fieldHydrated, pathsHydrated] at h
      simp [hydrateFieldValue, pyJoin, h]
  | str s => rfl
  | arr xs => rfl
  | quant xs u => rfl

theorem entriesHydrated_id (es : List (Value × Value)) (pre : PyPath)
    (h : entriesHydrated es = true) : hydrateEntries es pre = es := by
  cases es with
  | nil => rfl
  | cons e rest =>
      cases e with
      | mk k v =>
          rw [entriesHydrated, Bool.and_eq_true, Bool.and_eq_true] at h
          rw [hydrateEntries, pathsHydrated_update_id k pre h.1.1,
            pathsHydrated_update_id v pre h.1.2, entriesHydrated_id rest pre h.2]

theorem elemsHydrated_id (xs : List Value) (pre : PyPath)
    (h : elemsHydrated xs = true) : hydrateElems xs pre = xs := by
  cases xs with
  | nil => rfl
  | cons v rest =>
      rw [elemsHydrated, Bool.and_eq_true] at h
      rw [hydrateElems, pathsHydrated_update_id v pre h.1, elemsHydrated_id rest pre h.2]

end

mutual

theorem update_pathsHydrated (v : Value) (pre : PyPath) (h : pre.absolute = true) :
    pathsHydrated (update_attr_value v pre) = true := by
  cases v with
  | path p =>
      by_cases hp : p.absolute <;>
        simp [update_attr_value, pathsHydrated, pyJoin, hp, h]
  | record n fs =>
      rw [update_attr_value, pathsHydrated]
      exact hydrateFields_fieldsHydrated fs pre h
  | str s => simp [update_attr_value, pathsHydrated]
  | arr xs => simp [update_attr_value, pathsHydrated]
  | quant xs u => simp [update_attr_value, pathsHydrated]
  | list xs => simp [update_attr_value, pathsHydrated]
  | map es => simp [update_attr_value, pathsHydrated]

theorem hydrateFields_fieldsHydrated (fs : List (String × Value)) (pre : PyPath)
    (h : pre.absolute = true) : fieldsHydrated (hydrateFields fs pre) = true := by
  cases fs with
  | nil => simp [hydrateFields, fieldsHydrated]
  | cons f rest =>
      cases f with
      | mk n v =>
          rw [hydrateFields, fieldsHydrated, Bool.and_eq_true]
          exact ⟨hydrateFieldValue_fieldHydrated v pre h,
            hydrateFields_fieldsHydrated rest pre h⟩

theorem hydrateFieldValue_fieldHydrated (v : Value) (pre : PyPath)
    (h : pre.absolute = true) : fieldHydrated (hydrateFieldValue v pre) = true := by
  cases v with
  | map es =>
      rw [hydrateFieldValue, fieldHydrated, Bool.and_eq_true]
      constructor
      · rw [entriesHydrated_iff]
        exact pyDictRebuild_forall (fun a => pathsHydrated a = true)
          (fun a => pathsHydrated a = true) (hydrateEntries es pre)
          ((entriesHydrated_iff (hydrateEntries es pre)).mp
            (hydrateEntries_entriesHydrated es pre h))
      · exact (keysNodupB_iff _).mpr (pyDictRebuild_keys_nodup (hydrateEntries es pre))
  | list xs =>
      rw [hydrateFieldValue, fieldHydrated]
      exact hydrateElems_elemsHydrated xs pre h
  | record n fs =>
      simp only [hydrateFieldValue, fieldHydrated, pathsHydrated]
      exact hydrateFields_fieldsHydrated fs pre h
  | path p =>
      by_cases hp : p.absolute <;>
        simp [hydrateFieldValue, fieldHydrated, pathsHydrated, pyJoin, hp, h]
  | str s => simp [hydrateFieldValue, fieldHydrated, pathsHydrated]
  | arr xs => simp [hydrateFieldValue, fieldHydrated, pathsHydrated]
  | quant xs u => simp [hydrateFieldValue, fieldHydrated, pathsHydrated]

theorem hydrateEntries_entriesHydrated (es : List (Value × Value)) (pre : PyPath)
    (h : pre.absolute = true) : entriesHydrated (hydrateEntries es pre) = true := by
  cases es with
  | nil => simp [hydrateEntries, entriesHydrated]
  | cons e rest =>
      cases e with
      | mk k v =>
          rw [hydrateEntries, entriesHydrated, Bool.and_eq_true, Bool.and_eq_true]
          exact ⟨⟨update_pathsHydrated k pre h, update_pathsHydrated v pre h⟩,
            hydrateEntries_entriesHydrated rest pre h⟩

theorem hydrateElems_elemsHydrated (xs : List Value) (pre : PyPath)
    (h : pre.absolute = true) : elemsHydrated (hydrateElems xs pre) = true := by
  cases xs with
  | nil => simp [hydrateElems, elemsHydrated]
  | cons v rest =>
      rw [hydrateElems, elemsHydrated, Bool.and_eq_true]
      exact ⟨update_pathsHydrated v pre h, hydrateElems_elemsHydrated rest pre h⟩

end

/-- C10: the single-value hydration rule leaves an already-absolute
path unchanged under EVERY prefix path — relative or absolute — since
joining a prefix onto an absolute path discards the prefix; and, when
the prefix itself is absolute, hydration is idempotent: applying
`update_attr_value` to an already-hydrated value returns an equal
value, not a double-prefixed one. Only the second conjunct assumes the
prefix absolute; the first holds for the arbitrary prefix `q`. -/
theorem absolute_path_hydration_stable (p pre : PyPath) (v : Value)
    (hp : p.absolute = true) (hpre : pre.absolute = true) :
    (∀ q : PyPath, update_attr_value (.path p) q = .path p)
    ∧ update_attr_value (update_attr_value v pre) pre = update_attr_value v pre :=
  ⟨fun q => by simp [update_attr_value, pyJoin, hp],
   pathsHydrated_update_id _ pre (update_pathsHydrated v pre hpre)⟩

theorem absolute_path_hydration_stable_witness :
    update_attr_value (.path ⟨true, ["abs", "x"]⟩) ⟨false, ["rel", "pre"]⟩
        = .path ⟨true, ["abs", "x"]⟩
    ∧ update_attr_value (.path ⟨true, ["abs", "x"]⟩) ⟨true, ["root"]⟩
        = .path ⟨true, ["abs", "x"]⟩
    ∧ update_attr_value (update_attr_value sampleHydV ⟨true, ["root"]⟩) ⟨true, ["root"]⟩
        = update_attr_value sampleHydV ⟨true, ["root"]⟩ :=
  ⟨(absolute_path_hydration_stable ⟨true, ["abs", "x"]⟩ ⟨true, ["root"]⟩ sampleHydV
      rfl rfl).1 ⟨false, ["rel", "pre"]⟩,
   (absolute_path_hydration_stable ⟨true, ["abs", "x"]⟩ ⟨true, ["root"]⟩ sampleHydV
      rfl rfl).1 ⟨true, ["root"]⟩,
   (absolute_path_hydration_stable ⟨true, ["abs", "x"]⟩ ⟨true, ["root"]⟩ sampleHydV
      rfl rfl).2⟩

/-- C2 counterexample: with an absolute prefix, hydration of this
record (which has a Path-valued field) is idempotent — the first
hydration makes the field absolute and the second joins the prefix onto
an absolute path, which discards the prefix — contradicting the claim
that `hydrate(hydrate(C, P), P)` differs from `hydrate(C, P)` for every
record with a Path field and every prefix. -/
theorem hydrate_not_idempotent_cex :
    update_attr_value
        (update_attr_value (.record "Config" [("out", .path ⟨false, ["foo"]⟩)])
          ⟨true, ["root"]⟩)
        ⟨true, ["root"]⟩
      = update_attr_value (.record "Config" [("out", .path ⟨false, ["foo"]⟩)])
          ⟨true, ["root"]⟩ := by
  decide

/-- C2 (amended): hydration is not idempotent when the prefix is
relative and non-empty and the record carries a relative Path field:
the single-value rule prepends the prefix again on re-hydration, so the
field is double-prefixed and the records differ. (With an absolute
prefix — the intended use — re-hydration is the identity instead, see
the counterexample.) -/
theorem hydrate_double_prefix_relative
    (name fname : String) (fs : List (String × Value)) (pre p : PyPath)
    (hmem : (fname, Value.path p) ∈ fs)
    (hp : p.absolute = false)
    (hpreabs : pre.absolute = false) (hprene : pre.parts ≠ []) :
    update_attr_value (update_attr_value (.record name fs) pre) pre
      ≠ update_attr_value (.record name fs) pre := by
  intro heq
  have h1 : hydrateFields (hydrateFields fs pre) pre = hydrateFields fs pre := by
    simp only [update_attr_value, Value.record.injEq] at heq
    exact heq.2
  rw [hydrateFields_eq_map fs pre,
    hydrateFields_eq_map (fs.map (fun f => (f.1, hydrateFieldValue f.2 pre))) pre,
    List.map_map] at h1
  have h2 := List.map_inj_left.mp h1 (fname, Value.path p) hmem
  simp only [Function.comp_apply, Prod.mk.injEq, true_and] at h2
  have e1 : hydrateFieldValue (.path p) pre = .path ⟨false, pre.parts ++ p.parts⟩ := by
    simp [hydrateFieldValue, pyJoin, hp, hpreabs]
  have e2 : hydrateFieldValue (.path ⟨false, pre.parts ++ p.parts⟩) pre
      = .path ⟨false, pre.parts ++ (pre.parts ++ p.parts)⟩ := by
    simp [hydrateFieldValue, pyJoin, hpreabs]
  rw [e1, e2, Value.path.injEq, PyPath.mk.injEq] at h2
  have h5 : pre.parts ++ p.parts = p.parts := List.append_cancel_left h2.2
  have h6 : pre.parts.length = 0 := by
    have := congrArg List.length h5
    simp only [List.length_append] at this
    omega
  exact hprene (List.length_eq_zero.mp h6)

theorem hydrate_double_prefix_relative_witness :
    update_attr_value
        (update_attr_value (.record "Config" [("out", .path ⟨false, ["foo"]⟩)])
          ⟨false, ["pre"]⟩)
        ⟨false, ["pre"]⟩
      ≠ update_attr_value (.record "Config" [("out", .path ⟨false, ["foo"]⟩)])
          ⟨false, ["pre"]⟩ :=
  hydrate_double_prefix_relative "Config" "out" [("out", .path ⟨false, ["foo"]⟩)]
    ⟨false, ["pre"]⟩ ⟨false, ["foo"]⟩ (by simp) rfl rfl (by simp)

theorem hydrateFields_append (a b : List (String × Value)) (pre : PyPath) :
    hydrateFields (a ++ b) pre = hydrateFields a pre ++ hydrateFields b pre := by
  induction a with
  | nil => simp [hydrateFields]
  | cons f rest ih =>
      cases f with
      | mk n v => rw [List.cons_append, hydrateFields, hydrateFields, ih, List.cons_append]

/-- C5: a field value for which the source's
`iterable_values_are_updatable` test is false — a text string, a numpy
array, a pint quantity — is returned whole by the per-field walk and by
the single-value rule, never rebuilt element by element; inside a
record, such a field survives hydration in place and unchanged. -/
theorem leaf_types_not_iterated (v : Value) (pre : PyPath)
    (h : iterable_values_are_updatable v = false) :
    hydrateFieldValue v pre = v
    ∧ update_attr_value v pre = v
    ∧ ∀ (name fname : String) (before after : List (String × Value)),
        update_attr_value (.record name (before ++ (fname, v) :: after)) pre
          = .record name
              (hydrateFields before pre ++ (fname, v) :: hydrateFields after pre) := by
  have main : hydrateFieldValue v pre = v ∧ update_attr_value v pre = v := by
    cases v with
    | str s => exact ⟨by simp [hydrateFieldValue], by simp [update_attr_value]⟩
    | arr xs => exact ⟨by simp [hydrateFieldValue], by simp [update_attr_value]⟩
    | quant xs u => exact ⟨by simp [hydrateFieldValue], by simp [update_attr_value]⟩
    | path p => simp [iterable_values_are_updatable] at h
    | record n fs => simp [iterable_values_are_updatable] at h
    | list xs => simp [iterable_values_are_updatable] at h
    | map es => simp [iterable_values_are_updatable] at h
  refine ⟨main.1, main.2, ?_⟩
  intro name fname before after
  simp only [update_attr_value]
  rw [hydrateFields_append, hydrateFields, main.1]

theorem leaf_types_not_iterated_witness :
    hydrateFieldValue (.arr [1, 2, 3]) ⟨false, ["pre"]⟩ = .arr [1, 2, 3]
    ∧ update_attr_value (.arr [1, 2, 3]) ⟨false, ["pre"]⟩ = .arr [1, 2, 3]
    ∧ update_attr_value
        (.record "C" ([("out", .path ⟨false, ["rel"]⟩)] ++ ("data", .arr [1, 2, 3]) :: []))
        ⟨false, ["pre"]⟩
      = .record "C"
          (hydrateFields [("out", .path ⟨false, ["rel"]⟩)] ⟨false, ["pre"]⟩
            ++ ("data", .arr [1, 2, 3]) :: hydrateFields [] ⟨false, ["pre"]⟩) :=
  ⟨(leaf_types_not_iterated (.arr [1, 2, 3]) ⟨false, ["pre"]⟩ rfl).1,
   (leaf_types_not_iterated (.arr [1, 2, 3]) ⟨false, ["pre"]⟩ rfl).2.1,
   (leaf_types_not_iterated (.arr [1, 2, 3]) ⟨false, ["pre"]⟩ rfl).2.2 "C" "data"
     [("out", .path ⟨false, ["rel"]⟩)] []⟩

mutual

theorem strip_update (v : Value) (pre : PyPath) (h : updateNoCollisions v pre = true) :
    stripPaths (update_attr_value v pre) = stripPaths v := by
  cases v with
  | path p => simp [update_attr_value, stripPaths]
  | record n fs =>
      simp only [updateNoCollisions] at h
      simp only [update_attr_value, stripPaths]
      rw [strip_fields fs pre h]
  | str s => simp [update_attr_value]
  | arr xs => simp [update_attr_value]
  | quant xs u => simp [update_attr_value]
  | list xs => simp [update_attr_value]
  | map es => simp [update_attr_value]

theorem strip_fields (fs : List (String × Value)) (pre : PyPath)
    (h : fieldsNoCollisions fs pre = true) :
    stripFields (hydrateFields fs pre) = stripFields fs := by
  cases fs with
  | nil => simp [hydrateFields]
  | cons f rest =>
      cases f with
      | mk n v =>
          rw [fieldsNoCollisions, Bool.and_eq_true] at h
          rw [hydrateFields, stripFields, stripFields, strip_fieldValue v pre h.1,
            strip_fields rest pre h.2]

theorem strip_fieldValue (v : Value) (pre : PyPath)
    (h : fieldNoCollisions v pre = true) :
    stripPaths (hydrateFieldValue v pre) = stripPaths v := by
  cases v with
  | map es =>
      rw [fieldNoCollisions, Bool.and_eq_true] at h
      rw [hydrateFieldValue,
        pyDictRebuild_eq_self (hydrateEntries es pre)
          ((keysNodupB_iff ((hydrateEntries es pre).map Prod.fst)).mp h.1)]
      simp only [stripPaths]
      rw [strip_entries es pre h.2]
  | list xs =>
      simp only [fieldNoCollisions] at h
      simp only [hydrateFieldValue, stripPaths]
      rw [strip_elems xs pre h]
  | record n fs =>
      simp only [fieldNoCollisions] at h
      simp only [hydrateFieldValue, stripPaths]
      rw [strip_fields fs pre h]
  | path p => simp [hydrateFieldValue, stripPaths]
  | str s => simp [hydrateFieldValue]
  | arr xs => simp [hydrateFieldValue]
  | quant xs u => simp [hydrateFieldValue]

theorem strip_entries (es : List (Value × Value)) (pre : PyPath)
    (h : entriesNoCollisions es pre = true) :
    stripEntries (hydrateEntries es pre) = stripEntries es := by
  cases es with
  | nil => simp [hydrateEntries]
  | cons e rest =>
      cases e with
      | mk k v =>
          rw [entriesNoCollisions, Bool.and_eq_true, Bool.and_eq_true] at h
          rw [hydrateEntries, stripEntries, stripEntries, strip_update k pre h.1.1,
            strip_update v pre h.1.2, strip_entries rest pre h.2]

theorem strip_elems (xs : List Value) (pre : PyPath)
    (h : elemsNoCollisions xs pre = true) :
    stripElems (hydrateElems xs pre) = stripElems xs := by
  cases xs with
  | nil => simp [hydrateElems]
  | cons v rest =>
      rw [elemsNoCollisions, Bool.and_eq_true] at h
      rw [hydrateElems, stripElems, stripElems, strip_update v pre h.1,
        strip_elems rest pre h.2]

end

/-- C4 counterexample: mapping keys are themselves hydrated, so a dict
field keyed by a relative Path does not keep its key set: with prefix
`pre`, the key `k` becomes `pre/k` and the hydrated record's key set
differs from the original's. -/
theorem hydration_map_key_set_cex :
    update_attr_value
        (.record "Config" [("m", .map [(.path ⟨false, ["k"]⟩, .str "x")])])
        ⟨false, ["pre"]⟩
      = .record "Config" [("m", .map [(.path ⟨false, ["pre", "k"]⟩, .str "x")])]
    ∧ [Value.path ⟨false, ["pre", "k"]⟩] ≠ [Value.path ⟨false, ["k"]⟩] :=
  ⟨by decide, by decide⟩

/-- C4 (amended): hydration preserves the record type, the field names
(in order), and — at every nesting depth — all structure and every
non-Path leaf value: erasing path contents from the hydrated record
yields exactly the erasure of the original. Mapping keys are hydrated
like values, so Path-valued keys change and the key sets are preserved
only up to that hydration; the statement assumes the hydrated keys of
every dict the walk rebuilds stay pairwise distinct (a colliding pair
would shrink the dict). -/
theorem hydration_preserves_shape (name : String) (fs : List (String × Value))
    (pre : PyPath) (h : updateNoCollisions (.record name fs) pre = true) :
    update_attr_value (.record name fs) pre = .record name (hydrateFields fs pre)
    ∧ (hydrateFields fs pre).map Prod.fst = fs.map Prod.fst
    ∧ (hydrateFields fs pre).length = fs.length
    ∧ stripPaths (update_attr_value (.record name fs) pre) = stripPaths (.record name fs) := by
  refine ⟨by simp [update_attr_value], ?_, ?_, strip_update _ pre h⟩
  · rw [hydrateFields_eq_map, List.map_map]
    exact List.map_congr_left (fun f _ => rfl)
  · rw [hydrateFields_eq_map, List.length_map]

theorem hydration_preserves_shape_witness :
    update_attr_value sampleHydV ⟨false, ["pre"]⟩
        = .record "Config"
            (hydrateFields
              [("out", .path ⟨false, ["rel"]⟩),
               ("m", .map [(.path ⟨false, ["k"]⟩, .path ⟨false, ["q"]⟩)]),
               ("xs", .list [.path ⟨false, ["e"]⟩]),
               ("s", .str "keep")] ⟨false, ["pre"]⟩)
    ∧ stripPaths (update_attr_value sampleHydV ⟨false, ["pre"]⟩) = stripPaths sampleHydV := by
  refine ⟨?_, ?_⟩
  · exact (hydration_preserves_shape "Config"
      [("out", .path ⟨false, ["rel"]⟩),
       ("m", .map [(.path ⟨false, ["k"]⟩, .path ⟨false, ["q"]⟩)]),
       ("xs", .list [.path ⟨false, ["e"]⟩]),
       ("s", .str "keep")] ⟨false, ["pre"]⟩ (by decide)).1
  · exact (hydration_preserves_shape "Config"
      [("out", .path ⟨false, ["rel"]⟩),
       ("m", .map [(.path ⟨false, ["k"]⟩, .path ⟨false, ["q"]⟩)]),
       ("xs", .list [.path ⟨false, ["e"]⟩]),
       ("s", .str "keep")] ⟨false, ["pre"]⟩ (by decide)).2.2.2

theorem to_doit_task_some_ok (c : ConfiguredNotebook) (r o : PyPath) (b : DoitTaskSpec)
    (conv : Converter) (cl : Bool) :
    to_doit_task c r o b (some conv) cl
      = .ok ((to_doit_task c r o b (some conv) cl).toOption.getD emptyTaskSpec) := by
  cases hc : c.configuration with
  | none => simp [to_doit_task, hc, Except.toOption]
  | some cfg => simp [to_doit_task, hc, Except.toOption]

theorem gen_tasks_for_id_ok (cs : List ConfiguredNotebook) (r o : PyPath)
    (conv : Converter) (cl : Bool) :
    gen_tasks_for_id cs r o (some conv) cl
      = .ok (cs.map (fun c =>
          (to_doit_task c r o (base_task_of c.unconfigured_notebook)
            (some conv) cl).toOption.getD emptyTaskSpec)) := by
  induction cs with
  | nil => rfl
  | cons c rest ih =>
      rw [gen_tasks_for_id,
        to_doit_task_some_ok c r o (base_task_of c.unconfigured_notebook) conv cl, ih]
      rfl

theorem gen_configured_groups_ok (ids : List String) (step : String)
    (un : List UnconfiguredNotebook) (configure : String → List ConfiguredNotebook)
    (r ro : PyPath) (conv : Converter) (cl : Bool)
    (hlen : ∀ id ∈ ids, (configure id).length = un.length) :
    gen_configured_groups step un configure ids r ro (some conv) cl
      = .ok (ids.flatMap (fun id => (configure id).map (fun c =>
          (to_doit_task c r (notebook_output_dir_for ro step id)
            (base_task_of c.unconfigured_notebook)
            (some conv) cl).toOption.getD emptyTaskSpec))) := by
  induction ids with
  | nil => rfl
  | cons id rest ih =>
      rw [gen_configured_groups,
        if_neg (not_not_intro (hlen id (List.mem_cons_self id rest))),
        gen_tasks_for_id_ok, ih (fun i hi => hlen i (List.mem_cons_of_mem id hi))]
      rfl

/-- C3 (spec-modelled): over N unconfigured notebooks and M distinct
step-configuration ids, the step task generator succeeds and yields
exactly the N base task records (in supplied notebook order) followed
by the M groups of configured records in id encounter order, each group
in the supplied notebook order — N + N*M records in total. -/
theorem step_task_generator_order (step : String) (un : List UnconfiguredNotebook)
    (configure : String → List ConfiguredNotebook) (ids : List String)
    (r ro : PyPath) (conv : Converter) (cl : Bool)
    (_hnodup : ids.Nodup)
    (hlen : ∀ id ∈ ids, (configure id).length = un.length) :
    gen_notebook_tasks step un configure ids r ro (some conv) cl
      = .ok (un.map base_task_of ++ ids.flatMap (fun id => (configure id).map (fun c =>
          (to_doit_task c r (notebook_output_dir_for ro step id)
            (base_task_of c.unconfigured_notebook)
            (some conv) cl).toOption.getD emptyTaskSpec)))
    ∧ (un.map base_task_of ++ ids.flatMap (fun id => (configure id).map (fun c =>
          (to_doit_task c r (notebook_output_dir_for ro step id)
            (base_task_of c.unconfigured_notebook)
            (some conv) cl).toOption.getD emptyTaskSpec))).length
        = un.length + un.length * ids.length := by
  constructor
  · rw [gen_notebook_tasks, gen_configured_groups_ok ids step un configure r ro conv cl hlen]
  · rw [List.length_append, List.length_map]
    have hgroups : ∀ (ids' : List String), (∀ id ∈ ids', (configure id).length = un.length) →
        (ids'.flatMap (fun id => (configure id).map (fun c =>
          (to_doit_task c r (notebook_output_dir_for ro step id)
            (base_task_of c.unconfigured_notebook)
            (some conv) cl).toOption.getD emptyTaskSpec))).length
          = un.length * ids'.length := by
      intro ids'
      induction ids' with
      | nil => simp
      | cons id rest ih =>
          intro hl
          rw [List.flatMap_cons, List.length_append, List.length_map,
            ih (fun i hi => hl i (List.mem_cons_of_mem id hi)),
            hl id (List.mem_cons_self id rest), List.length_cons]
          ring
    rw [hgroups ids hlen]

theorem step_task_generator_order_witness :
    gen_notebook_tasks "plot" [sampleUn, sampleUn2] sampleConfigure ["default"]
        rawRootP ⟨true, ["out"]⟩ (some sampleConv) false
      = .ok ([sampleUn, sampleUn2].map base_task_of
          ++ ["default"].flatMap (fun id => (sampleConfigure id).map (fun c =>
            (to_doit_task c rawRootP (notebook_output_dir_for ⟨true, ["out"]⟩ "plot" id)
              (base_task_of c.unconfigured_notebook)
              (some sampleConv) false).toOption.getD emptyTaskSpec)))
    ∧ ([sampleUn, sampleUn2].map base_task_of
          ++ ["default"].flatMap (fun id => (sampleConfigure id).map (fun c =>
            (to_doit_task c rawRootP (notebook_output_dir_for ⟨true, ["out"]⟩ "plot" id)
              (base_task_of c.unconfigured_notebook)
              (some sampleConv) false).toOption.getD emptyTaskSpec))).length
        = 2 + 2 * 1 :=
  step_task_generator_order "plot" [sampleUn, sampleUn2] sampleConfigure ["default"]
    rawRootP ⟨true, ["out"]⟩ sampleConv false (by simp) (fun id _ => rfl)

end PydoitNb
